import Mathlib

/-!
Verification development for the BTCNews repository (src/BTCNews.py).

The Python program is shallowly embedded below: pure helpers become Lean
functions; the two pipeline handlers (`check_and_send_news`, `latest_news`)
become state-passing functions over an explicit in-memory model of the
sqlite `news` table, with the external effects (news API, translation API,
Telegram sends) supplied as oracle parameters.  Exceptions in the Python
code are modelled by the early-return / `errored` flag structure of the
corresponding Lean functions, mirroring the `try`/`except` placement of the
source.
-/

namespace BTCNews

/-! ## MD5 (as used by `generate_news_id` via `hashlib.md5`) -/

def M32 : Nat := 4294967296

def rotl32 (x n : Nat) : Nat := ((x <<< n) ||| (x >>> (32 - n))) % M32

def md5K : List Nat :=
  [3614090360, 3905402710, 606105819, 3250441966, 4118548399, 1200080426,
   2821735955, 4249261313, 1770035416, 2336552879, 4294925233, 2304563134,
   1804603682, 4254626195, 2792965006, 1236535329, 4129170786, 3225465664,
   643717713, 3921069994, 3593408605, 38016083, 3634488961, 3889429448,
   568446438, 3275163606, 4107603335, 1163531501, 2850285829, 4243563512,
   1735328473, 2368359562, 4294588738, 2272392833, 1839030562, 4259657740,
   2763975236, 1272893353, 4139469664, 3200236656, 681279174, 3936430074,
   3572445317, 76029189, 3654602809, 3873151461, 530742520, 3299628645,
   4096336452, 1126891415, 2878612391, 4237533241, 1700485571, 2399980690,
   4293915773, 2240044497, 1873313359, 4264355552, 2734768916, 1309151649,
   4149444226, 3174756917, 718787259, 3951481745]

def md5S : List Nat :=
  [7, 12, 17, 22, 7, 12, 17, 22, 7, 12, 17, 22, 7, 12, 17, 22,
   5, 9, 14, 20, 5, 9, 14, 20, 5, 9, 14, 20, 5, 9, 14, 20,
   4, 11, 16, 23, 4, 11, 16, 23, 4, 11, 16, 23, 4, 11, 16, 23,
   6, 10, 15, 21, 6, 10, 15, 21, 6, 10, 15, 21, 6, 10, 15, 21]

def md5F (i b c d : Nat) : Nat :=
  if i < 16 then (b &&& c) ||| ((b ^^^ 4294967295) &&& d)
  else if i < 32 then (d &&& b) ||| ((d ^^^ 4294967295) &&& c)
  else if i < 48 then b ^^^ c ^^^ d
  else c ^^^ (b ||| (d ^^^ 4294967295))

def md5G (i : Nat) : Nat :=
  if i < 16 then i
  else if i < 32 then (5 * i + 1) % 16
  else if i < 48 then (3 * i + 5) % 16
  else (7 * i) % 16

def md5Step (w : List Nat) (st : Nat × Nat × Nat × Nat) (i : Nat) :
    Nat × Nat × Nat × Nat :=
  let (a, b, c, d) := st
  let f := (a + md5F i b c d + md5K.getD i 0 + w.getD (md5G i) 0) % M32
  (d, (b + rotl32 f (md5S.getD i 0)) % M32, b, c)

def md5Chunk (st : Nat × Nat × Nat × Nat) (w : List Nat) :
    Nat × Nat × Nat × Nat :=
  let (a, b, c, d) := (List.range 64).foldl (md5Step w) st
  ((st.1 + a) % M32, (st.2.1 + b) % M32, (st.2.2.1 + c) % M32, (st.2.2.2 + d) % M32)

/-- Group a 64-byte block into 16 little-endian 32-bit words. -/
def leWords : List Nat → List Nat
  | b0 :: b1 :: b2 :: b3 :: rest =>
      (b0 + 256 * b1 + 65536 * b2 + 16777216 * b3) :: leWords rest
  | _ => []

def md5Blocks : Nat → (Nat × Nat × Nat × Nat) → List Nat → Nat × Nat × Nat × Nat
  | 0, st, _ => st
  | n + 1, st, bytes => md5Blocks n (md5Chunk st (leWords (bytes.take 64))) (bytes.drop 64)

/-- MD5 padding: 0x80, zeros to 56 mod 64, then the bit length as 8
little-endian bytes (mod 2^64). -/
def padMessage (msg : List Nat) : List Nat :=
  let len := msg.length
  let zeros := (56 + 64 - ((len + 1) % 64)) % 64
  let bits := (8 * len) % 18446744073709551616
  msg ++ [128] ++ List.replicate zeros 0 ++
    ((List.range 8).map fun i => (bits >>> (8 * i)) % 256)

def hexDigit (n : Nat) : Char :=
  if n < 10 then Char.ofNat (48 + n) else Char.ofNat (87 + n)

def byteHex (b : Nat) : List Char := [hexDigit (b / 16), hexDigit (b % 16)]

def wordHexLE (w : Nat) : List Char :=
  byteHex (w % 256) ++ byteHex ((w >>> 8) % 256) ++
    byteHex ((w >>> 16) % 256) ++ byteHex ((w >>> 24) % 256)

def md5hexBytes (msg : List Nat) : String :=
  let padded := padMessage msg
  let r := md5Blocks (padded.length / 64)
    (1732584193, 4023233417, 2562383102, 271733878) padded
  ⟨wordHexLE r.1 ++ wordHexLE r.2.1 ++ wordHexLE r.2.2.1 ++ wordHexLE r.2.2.2⟩

/-- UTF-8 encoding of one character (Python `str.encode()`). -/
def utf8Bytes (c : Char) : List Nat :=
  let n := c.toNat
  if n < 128 then [n]
  else if n < 2048 then [192 ||| (n >>> 6), 128 ||| (n &&& 63)]
  else if n < 65536 then
    [224 ||| (n >>> 12), 128 ||| ((n >>> 6) &&& 63), 128 ||| (n &&& 63)]
  else
    [240 ||| (n >>> 18), 128 ||| ((n >>> 12) &&& 63),
     128 ||| ((n >>> 6) &&& 63), 128 ||| (n &&& 63)]

def strBytes (s : String) : List Nat := s.data.foldr (fun c acc => utf8Bytes c ++ acc) []

def md5hex (s : String) : String := md5hexBytes (strBytes s)

/-- `generate_news_id` from src/BTCNews.py:
`hashlib.md5(f"{title}{url}".encode()).hexdigest()`. -/
def generate_news_id (title url : String) : String := md5hex (title ++ url)

example : md5hex "" = "d41d8cd98f00b204e9800998ecf8427e" := by decide
example : md5hex "abc" = "900150983cd24fb0d6963f7d28e17f72" := by decide
example : md5hex "The quick brown fox" = "a2004f37730b9445670a738fa0fc9ee5" := by decide

/-! ## Datetimes: `datetime.strptime(_, '%Y-%m-%dT%H:%M:%SZ')` and
`strftime('%d.%m.%Y %H:%M')` -/

structure DateTime where
  year : Nat
  month : Nat
  day : Nat
  hour : Nat
  minute : Nat
  second : Nat
deriving DecidableEq, Repr

def digit? (c : Char) : Bool := 48 ≤ c.toNat && c.toNat ≤ 57

def digitsVal (cs : List Char) : Nat := cs.foldl (fun a c => 10 * a + (c.toNat - 48)) 0

/-- Read greedily up to `n` leading decimal digits. -/
def takeDigitsUpTo : Nat → List Char → List Char × List Char
  | 0, cs => ([], cs)
  | _ + 1, [] => ([], [])
  | n + 1, c :: cs =>
    if digit? c then
      let r := takeDigitsUpTo n cs
      (c :: r.1, r.2)
    else ([], c :: cs)

def isLeap (y : Nat) : Bool := y % 4 = 0 && (y % 100 ≠ 0 || y % 400 = 0)

def daysInMonth (y m : Nat) : Nat :=
  if m = 2 then (if isLeap y then 29 else 28)
  else if m = 4 || m = 6 || m = 9 || m = 11 then 30
  else 31

/-- Model of `datetime.strptime(s, '%Y-%m-%dT%H:%M:%SZ')`: 4 digits for
`%Y`, 1–2 digits for each other field, the literal separators, the whole
string consumed, and the `datetime` constructor's range validation.
Returns `none` where Python raises `ValueError`. -/
def parseDateTime (s : String) : Option DateTime :=
  let p0 := takeDigitsUpTo 4 s.data
  if p0.1.length ≠ 4 then none else
  match p0.2 with
  | '-' :: r2 =>
    let p1 := takeDigitsUpTo 2 r2
    if p1.1.length = 0 then none else
    match p1.2 with
    | '-' :: r4 =>
      let p2 := takeDigitsUpTo 2 r4
      if p2.1.length = 0 then none else
      match p2.2 with
      | 'T' :: r6 =>
        let p3 := takeDigitsUpTo 2 r6
        if p3.1.length = 0 then none else
        match p3.2 with
        | ':' :: r8 =>
          let p4 := takeDigitsUpTo 2 r8
          if p4.1.length = 0 then none else
          match p4.2 with
          | ':' :: r10 =>
            let p5 := takeDigitsUpTo 2 r10
            if p5.1.length = 0 then none else
            match p5.2 with
            | ['Z'] =>
              let y := digitsVal p0.1
              let mo := digitsVal p1.1
              let d := digitsVal p2.1
              let h := digitsVal p3.1
              let mi := digitsVal p4.1
              let se := digitsVal p5.1
              if 1 ≤ y && 1 ≤ mo && mo ≤ 12 && 1 ≤ d && d ≤ daysInMonth y mo
                  && h ≤ 23 && mi ≤ 59 && se ≤ 59 then
                some ⟨y, mo, d, h, mi, se⟩
              else none
            | _ => none
          | _ => none
        | _ => none
      | _ => none
    | _ => none
  | _ => none

def pad2 (n : Nat) : String := if n < 10 then "0" ++ toString n else toString n

/-- Model of `published_at.strftime('%d.%m.%Y %H:%M')`. -/
def formatDMYHM (d : DateTime) : String :=
  pad2 d.day ++ "." ++ pad2 d.month ++ "." ++ toString d.year ++ " " ++
    pad2 d.hour ++ ":" ++ pad2 d.minute

example : parseDateTime "2020-12-31T10:05:00Z" = some ⟨2020, 12, 31, 10, 5, 0⟩ := by decide
example : parseDateTime "2021-02-30T10:05:00Z" = none := by decide
example : parseDateTime "bad" = none := by decide
example : formatDMYHM ⟨2020, 12, 31, 10, 5, 0⟩ = "31.12.2020 10:05" := by decide

/-! ## `translate_text`: MyMemory call with pass-through fallback -/

/-- Outcome of the translation HTTP call, as seen by `translate_text`:
`exn` covers a raised exception (network error / timeout, a non-success
HTTP status via `raise_for_status`, or an unparsable JSON body);
`json none _` a body with no `responseStatus` field (`KeyError`);
`json (some st) pl` a body with `responseStatus = st` and payload `pl`
(`none` when `responseData.translatedText` is missing). -/
inductive TransResp where
  | exn : TransResp
  | json (status : Option Int) (payload : Option String) : TransResp

abbrev TransEnv := String → TransResp

/-- Python's `not text.strip()`: true iff every character is whitespace. -/
def stripIsEmpty (s : String) : Bool :=
  s.data.all fun c => c = ' ' || c = '\t' || c = '\n' || c = '\r' ||
    c = '\x0b' || c = '\x0c'

/-- `translate_text` from src/BTCNews.py, instrumented with the number of
HTTP calls made (second component).  Every exception inside the `try` is
caught and yields the original text. -/
def translate_run (env : TransEnv) (text : String) : String × Nat :=
  if stripIsEmpty text then (text, 0)
  else
    match env text with
    | .exn => (text, 1)
    | .json none _ => (text, 1)
    | .json (some st) pl =>
      if st = 200 then
        match pl with
        | none => (text, 1)
        | some p => (p, 1)
      else (text, 1)

def translate_text (env : TransEnv) (text : String) : String :=
  (translate_run env text).1

/-! ## `fetch_bitcoin_news` -/

/-- An article object of the News API JSON body; `none` fields model
missing keys (`KeyError` on access). -/
structure RawArticle where
  title : Option String
  url : Option String
  source : Option String
  publishedAt : Option String
deriving DecidableEq, Repr

/-- Outcome of the News API call: `exn` is any raised exception
(network, `raise_for_status`, bad JSON); `ok none` a JSON body without
an `articles` key (`.get('articles', [])`); `ok (some l)` the article list. -/
inductive FetchResp where
  | exn : FetchResp
  | ok (body : Option (List RawArticle)) : FetchResp

def fetch_bitcoin_news : FetchResp → List RawArticle
  | .exn => []
  | .ok none => []
  | .ok (some l) => l

/-! ## The sqlite `news` table -/

/-- One row of the `news` table (id is the PRIMARY KEY). -/
structure Record where
  id : String
  title : String
  title_ru : String
  url : String
  source : String
  published_at : DateTime
deriving DecidableEq, Repr

/-- `SELECT id FROM news WHERE id=?` followed by `fetchone()`. -/
def existsId (store : List Record) (i : String) : Bool :=
  store.any fun r => r.id = i

/-- Startup `CREATE TABLE IF NOT EXISTS news (...)`: creates the table when
absent, keeps the existing rows otherwise. -/
def initTable : Option (List Record) → List Record
  | none => []
  | some s => s

/-! ## `check_and_send_news` -/

/-- Entry of the `new_articles` list built by the first loop of
`check_and_send_news`. -/
structure NewsItem where
  id : String
  title : String
  url : String
  source : String
  published_at : DateTime
deriving DecidableEq, Repr

/-- The per-article body of the first loop: field accesses (`KeyError` on a
missing key) and `strptime` (`ValueError` on a bad timestamp); any failure
is caught by the per-article `except` and yields `none` (skip). -/
def parseCheckArticle (a : RawArticle) : Option NewsItem :=
  match a.title, a.url, a.source, a.publishedAt with
  | some t, some u, some s, some p =>
    match parseDateTime p with
    | some d => some ⟨generate_news_id t u, t, u, s, d⟩
    | none => none
  | _, _, _, _ => none

/-- The first loop of `check_and_send_news`: classify each candidate
against the (unchanging) store, keeping the new ones in fetch order. -/
def filterNew (store : List Record) (articles : List RawArticle) : List NewsItem :=
  articles.filterMap fun a =>
    match parseCheckArticle a with
    | none => none
    | some n => if existsId store n.id then none else some n

/-- Whether a `send_message` / `reply_text` call succeeds (`false` models a
raised exception in the transport call). -/
abbrev SendOracle := String → Bool

/-- State threaded through a `check_and_send_news` run.  `store` is the
connection's view of the `news` table, `committed` what `conn.commit()` has
made durable, `delivered` the messages whose send succeeded (with
`deliveredIds` their fingerprints), and `errored` records that the outer
`except` caught an exception. -/
structure RunState where
  store : List Record
  committed : List Record
  delivered : List String
  deliveredIds : List String
  errored : Bool
deriving DecidableEq, Repr

/-- The message f-string of `check_and_send_news`. -/
def checkMessage (tt src date url : String) : String :=
  "📰 *" ++ tt ++ "*\n🔗 _Источник: " ++ src ++ "_\n📆 _Дата: " ++ date ++
    "_\n[Читать оригинал](" ++ url ++ ")"

/-- The second loop of `check_and_send_news`: translate, send, INSERT,
commit, per article.  A failed send or a PRIMARY-KEY violation on INSERT
raises, which the outer `except` catches, aborting the rest of the batch. -/
def sendLoop (env : TransEnv) (send : SendOracle) :
    List NewsItem → RunState → RunState
  | [], st => st
  | n :: rest, st =>
    let tt := translate_text env n.title
    let msg := checkMessage tt n.source (formatDMYHM n.published_at) n.url
    if send msg = false then { st with errored := true }
    else
      let st1 := { st with delivered := st.delivered ++ [msg],
                           deliveredIds := st.deliveredIds ++ [n.id] }
      if existsId st1.store n.id then { st1 with errored := true }
      else
        let r : Record := ⟨n.id, n.title, tt, n.url, n.source, n.published_at⟩
        sendLoop env send rest
          { st1 with store := st1.store ++ [r], committed := st1.store ++ [r] }

/-- `check_and_send_news` from src/BTCNews.py over the oracle environments. -/
def check_and_send_news (fenv : FetchResp) (tenv : TransEnv) (send : SendOracle)
    (store committed : List Record) : RunState :=
  let articles := fetch_bitcoin_news fenv
  let init : RunState := ⟨store, committed, [], [], false⟩
  if articles.isEmpty then init
  else sendLoop tenv send (filterNew store articles) init

/-! ## `latest_news` -/

/-- State threaded through a `latest_news` run.  `replies` are all
attempted `reply_text` calls (made whether or not the transport raises),
`delivered` those that succeeded, `sent_articles` the ids the handler
appended after a successful insert. -/
structure LatestState where
  store : List Record
  committed : List Record
  replies : List String
  delivered : List String
  deliveredIds : List String
  sent_articles : List String
  errored : Bool
deriving DecidableEq, Repr

/-- The message f-string of `latest_news`. -/
def latestMessage (tt url : String) : String :=
  "📰 *" ++ tt ++ "*\n[Читать статью](" ++ url ++ ")"

def notFoundMsg : String := "😔 Новости не найдены"

def noNewMsg : String := "🔄 Новых новостей нет"

def errorMsg : String := "⚠️ Ошибка при получении новостей"

/-- The loop of `latest_news`.  Per iteration: field accesses on `title`
and `url` (a `KeyError` aborts to the handler's `except`), membership check
against the connection's current view, translate, reply, then the INSERT —
whose argument tuple evaluates `article['source']['name']` and
`strptime(article['publishedAt'], ...)` only after the reply was sent, so
their failures abort the run with the article already delivered but not
recorded.  There is no commit inside the loop. -/
def latestLoop (tenv : TransEnv) (send : SendOracle) :
    List RawArticle → LatestState → LatestState
  | [], st => st
  | a :: rest, st =>
    match a.title, a.url with
    | some t, some u =>
      let i := generate_news_id t u
      if existsId st.store i then latestLoop tenv send rest st
      else
        let tt := translate_text tenv t
        let msg := latestMessage tt u
        let st1 := { st with replies := st.replies ++ [msg] }
        if send msg = false then { st1 with errored := true }
        else
          let st2 := { st1 with delivered := st1.delivered ++ [msg],
                                deliveredIds := st1.deliveredIds ++ [i] }
          match a.source, a.publishedAt with
          | some srcName, some p =>
            match parseDateTime p with
            | some d =>
              latestLoop tenv send rest
                { st2 with store := st2.store ++ [⟨i, t, tt, u, srcName, d⟩],
                           sent_articles := st2.sent_articles ++ [i] }
            | none => { st2 with errored := true }
          | _, _ => { st2 with errored := true }
    | _, _ => { st with errored := true }

/-- After the loop of `latest_news`: on an exception the `except` block
attempts the error reply and never commits; otherwise the handler replies
"nothing new" when applicable (a failure of that reply also aborts before
the commit) and finally runs `conn.commit()`. -/
def latestFinish (send : SendOracle) (st : LatestState) : LatestState :=
  if st.errored then { st with replies := st.replies ++ [errorMsg] }
  else if st.sent_articles.isEmpty then
    let st1 := { st with replies := st.replies ++ [noNewMsg] }
    if send noNewMsg = false then
      { st1 with errored := true, replies := st1.replies ++ [errorMsg] }
    else { st1 with committed := st1.store }
  else { st with committed := st.store }

/-- `latest_news` from src/BTCNews.py over the oracle environments. -/
def latest_news (fenv : FetchResp) (tenv : TransEnv) (send : SendOracle)
    (store committed : List Record) : LatestState :=
  let articles := (fetch_bitcoin_news fenv).take 5
  let init : LatestState := ⟨store, committed, [], [], [], [], false⟩
  if articles.isEmpty then
    let st1 := { init with replies := [notFoundMsg] }
    if send notFoundMsg = false then
      { st1 with errored := true, replies := st1.replies ++ [errorMsg] }
    else st1
  else latestFinish send (latestLoop tenv send articles init)

/-! ## Helper notions and lemmas -/

/-- The `news` table keeps at most one row per fingerprint. -/
def uniqueIds (s : List Record) : Prop := (s.map Record.id).Nodup

/-- A candidate whose late-accessed fields (`source.name`, `publishedAt`)
are present and parseable, so that `latest_news` can record it after
delivering it. -/
def recordable (a : RawArticle) : Bool :=
  a.source.isSome &&
    (match a.publishedAt with
     | none => false
     | some p => (parseDateTime p).isSome)

/-- Contiguous-substring test, needle-first (`leadsWith n h`: `n` is an
initial segment of `h`). -/
def leadsWith : List Char → List Char → Bool
  | [], _ => true
  | _ :: _, [] => false
  | c :: cs, d :: ds => c = d && leadsWith cs ds

def containsChars (needle : List Char) : List Char → Bool
  | [] => needle.isEmpty
  | c :: cs => leadsWith needle (c :: cs) || containsChars needle cs

/-- `strContains hay sub`: `sub` occurs contiguously in `hay`. -/
def strContains (hay sub : String) : Bool := containsChars sub.data hay.data

theorem existsId_append (s t : List Record) (i : String) :
    existsId (s ++ t) i = (existsId s i || existsId t i) := by
  simp [existsId, List.any_append]

theorem existsId_mono {s : List Record} (t : List Record) {i : String}
    (h : existsId s i = true) : existsId (s ++ t) i = true := by
  rw [existsId_append, h, Bool.true_or]

theorem mem_map_id_iff {s : List Record} {i : String} :
    i ∈ s.map Record.id ↔ existsId s i = true := by
  simp only [existsId, List.any_eq_true, List.mem_map, decide_eq_true_eq]

theorem filterNew_mem {store : List Record} {articles : List RawArticle} {n : NewsItem}
    (hn : n ∈ filterNew store articles) :
    existsId store n.id = false ∧ ∃ a ∈ articles, parseCheckArticle a = some n := by
  simp only [filterNew, List.mem_filterMap] at hn
  obtain ⟨a, hmem, ha⟩ := hn
  rcases hpa : parseCheckArticle a with _ | m <;> rw [hpa] at ha
  · cases ha
  · dsimp only at ha
    by_cases h2 : existsId store m.id = true
    · rw [if_pos h2] at ha; cases ha
    · rw [if_neg h2] at ha
      cases ha
      exact ⟨by simpa using h2, a, hmem, hpa⟩

theorem filterNew_fresh (store : List Record) (articles : List RawArticle) :
    ∀ n ∈ filterNew store articles, existsId store n.id = false := by
  intro n hn
  exact (filterNew_mem hn).1

theorem filterNew_skip (store : List Record) (xs ys : List RawArticle)
    (bad : RawArticle) (h : parseCheckArticle bad = none) :
    filterNew store (xs ++ bad :: ys) = filterNew store (xs ++ ys) := by
  simp [filterNew, List.filterMap_append, List.filterMap_cons, h]

theorem latestFinish_store (send : SendOracle) (st : LatestState) :
    (latestFinish send st).store = st.store := by
  unfold latestFinish
  split
  · rfl
  · split
    · split <;> rfl
    · rfl

theorem latestFinish_delivered (send : SendOracle) (st : LatestState) :
    (latestFinish send st).delivered = st.delivered := by
  unfold latestFinish
  split
  · rfl
  · split
    · split <;> rfl
    · rfl

theorem latestFinish_deliveredIds (send : SendOracle) (st : LatestState) :
    (latestFinish send st).deliveredIds = st.deliveredIds := by
  unfold latestFinish
  split
  · rfl
  · split
    · split <;> rfl
    · rfl

theorem sendLoop_store_ext (env : TransEnv) (send : SendOracle) :
    ∀ (l : List NewsItem) (st : RunState),
      ∃ ext, (sendLoop env send l st).store = st.store ++ ext := by
  intro l
  induction l with
  | nil => intro st; exact ⟨[], by simp [sendLoop]⟩
  | cons n rest ih =>
    intro st
    simp only [sendLoop]
    split
    · exact ⟨[], by simp⟩
    · split
      · exact ⟨[], by simp⟩
      · obtain ⟨ext, hext⟩ := ih _
        refine ⟨⟨n.id, n.title, translate_text env n.title, n.url, n.source,
          n.published_at⟩ :: ext, ?_⟩
        rw [hext]
        simp

theorem sendLoop_commit (env : TransEnv) (send : SendOracle) :
    ∀ (l : List NewsItem) (st : RunState), st.committed = st.store →
      (sendLoop env send l st).committed = (sendLoop env send l st).store := by
  intro l
  induction l with
  | nil => intro st h; simpa [sendLoop] using h
  | cons n rest ih =>
    intro st h
    simp only [sendLoop]
    split
    · exact h
    · split
      · exact h
      · exact ih _ rfl

theorem sendLoop_deliveredIds_take (env : TransEnv) (send : SendOracle) :
    ∀ (l : List NewsItem) (st : RunState),
      ∃ m, (sendLoop env send l st).deliveredIds =
        st.deliveredIds ++ (l.map NewsItem.id).take m := by
  intro l
  induction l with
  | nil => intro st; exact ⟨0, by simp [sendLoop]⟩
  | cons n rest ih =>
    intro st
    simp only [sendLoop]
    split
    · exact ⟨0, by simp⟩
    · split
      · exact ⟨1, by simp⟩
      · obtain ⟨m, hm⟩ := ih _
        refine ⟨m + 1, ?_⟩
        rw [hm]
        simp

theorem sendLoop_delivered_store (env : TransEnv) (send : SendOracle) :
    ∀ (l : List NewsItem) (st : RunState),
      (∀ i, i ∈ st.deliveredIds → existsId st.store i = true) →
      ∀ i, i ∈ (sendLoop env send l st).deliveredIds →
        existsId (sendLoop env send l st).store i = true := by
  intro l
  induction l with
  | nil => intro st h i hi; simp only [sendLoop] at hi ⊢; exact h i hi
  | cons n rest ih =>
    intro st h i hi
    simp only [sendLoop] at hi ⊢
    revert hi
    split
    · exact h i
    · split
      · intro hi
        simp only [List.mem_append, List.mem_singleton] at hi
        rcases hi with hi | hi
        · exact h i hi
        · subst hi; assumption
      · intro hi
        refine ih _ ?_ i hi
        intro j hj
        simp only [List.mem_append, List.mem_singleton] at hj
        rcases hj with hj | hj
        · exact existsId_mono _ (h j hj)
        · subst hj
          rw [existsId_append]
          simp [existsId]

theorem sendLoop_new_records (env : TransEnv) (send : SendOracle) :
    ∀ (l : List NewsItem) (st : RunState), ∀ r,
      r ∈ (sendLoop env send l st).store →
      r ∈ st.store ∨ r.id ∈ (sendLoop env send l st).deliveredIds := by
  intro l
  induction l with
  | nil => intro st r hr; simp only [sendLoop] at hr ⊢; exact Or.inl hr
  | cons n rest ih =>
    intro st r hr
    simp only [sendLoop] at hr ⊢
    revert hr
    split
    · exact fun hr => Or.inl hr
    · split
      · exact fun hr => Or.inl hr
      · intro hr
        rcases ih _ r hr with hin | hdel
        · simp only [List.mem_append, List.mem_singleton] at hin
          rcases hin with hin | hin
          · exact Or.inl hin
          · subst hin
            right
            obtain ⟨m, hm⟩ := sendLoop_deliveredIds_take env send rest _
            rw [hm]
            simp
        · exact Or.inr hdel

theorem sendLoop_uniqueIds (env : TransEnv) (send : SendOracle) :
    ∀ (l : List NewsItem) (st : RunState), uniqueIds st.store →
      uniqueIds (sendLoop env send l st).store := by
  intro l
  induction l with
  | nil => intro st h; simpa [sendLoop] using h
  | cons n rest ih =>
    intro st h
    simp only [sendLoop]
    split
    · exact h
    · split
      · exact h
      · refine ih _ ?_
        rename_i hfresh
        simp only [uniqueIds, List.map_append, List.map_cons, List.map_nil] at h ⊢
        rw [List.nodup_append]
        refine ⟨h, List.nodup_singleton _, ?_⟩
        intro x hx hmem
        simp only [List.mem_singleton] at hmem
        subst hmem
        exact hfresh (mem_map_id_iff.mp hx)

theorem sendLoop_delivered_shape (env : TransEnv) (send : SendOracle) :
    ∀ (l : List NewsItem) (st : RunState), ∀ m,
      m ∈ (sendLoop env send l st).delivered →
      m ∈ st.delivered ∨ ∃ n, n ∈ l ∧
        m = checkMessage (translate_text env n.title) n.source
          (formatDMYHM n.published_at) n.url := by
  intro l
  induction l with
  | nil => intro st m hm; simp only [sendLoop] at hm; exact Or.inl hm
  | cons n rest ih =>
    intro st m hm
    simp only [sendLoop] at hm
    revert hm
    split
    · exact fun hm => Or.inl hm
    · split
      · intro hm
        simp only [List.mem_append, List.mem_singleton] at hm
        rcases hm with hm | hm
        · exact Or.inl hm
        · exact Or.inr ⟨n, List.mem_cons_self n rest, hm⟩
      · intro hm
        rcases ih _ m hm with hin | ⟨n', hn', hmsg⟩
        · simp only [List.mem_append, List.mem_singleton] at hin
          rcases hin with hin | hin
          · exact Or.inl hin
          · exact Or.inr ⟨n, List.mem_cons_self n rest, hin⟩
        · exact Or.inr ⟨n', List.mem_cons_of_mem n hn', hmsg⟩

theorem latestLoop_store_ext (tenv : TransEnv) (send : SendOracle) :
    ∀ (l : List RawArticle) (st : LatestState),
      ∃ ext, (latestLoop tenv send l st).store = st.store ++ ext := by
  intro l
  induction l with
  | nil => intro st; exact ⟨[], by simp [latestLoop]⟩
  | cons a rest ih =>
    intro st
    simp only [latestLoop]
    split
    · split
      · exact ih st
      · split
        · exact ⟨[], by simp⟩
        · split
          · split
            · obtain ⟨ext, hext⟩ := ih _
              exact ⟨_, by rw [hext, List.append_assoc]⟩
            · exact ⟨[], by simp⟩
          · exact ⟨[], by simp⟩
    · exact ⟨[], by simp⟩

theorem latestLoop_committed (tenv : TransEnv) (send : SendOracle) :
    ∀ (l : List RawArticle) (st : LatestState),
      (latestLoop tenv send l st).committed = st.committed := by
  intro l
  induction l with
  | nil => intro st; simp [latestLoop]
  | cons a rest ih =>
    intro st
    simp only [latestLoop]
    split
    · split
      · exact ih st
      · split
        · rfl
        · split
          · split
            · rw [ih]
            · rfl
          · rfl
    · rfl

theorem latestLoop_deliveredIds_ext (tenv : TransEnv) (send : SendOracle) :
    ∀ (l : List RawArticle) (st : LatestState),
      ∃ ext, (latestLoop tenv send l st).deliveredIds = st.deliveredIds ++ ext := by
  intro l
  induction l with
  | nil => intro st; exact ⟨[], by simp [latestLoop]⟩
  | cons a rest ih =>
    intro st
    simp only [latestLoop]
    split
    · split
      · exact ih st
      · split
        · exact ⟨[], by simp⟩
        · split
          · split
            · obtain ⟨ext, hext⟩ := ih _
              exact ⟨_, by rw [hext, List.append_assoc]⟩
            · exact ⟨_, rfl⟩
          · exact ⟨_, rfl⟩
    · exact ⟨[], by simp⟩

theorem latestLoop_delivered_fresh (tenv : TransEnv) (send : SendOracle) :
    ∀ (l : List RawArticle) (st : LatestState), ∀ i,
      i ∈ (latestLoop tenv send l st).deliveredIds →
      i ∈ st.deliveredIds ∨ existsId st.store i = false := by
  intro l
  induction l with
  | nil => intro st i hi; simp only [latestLoop] at hi; exact Or.inl hi
  | cons a rest ih =>
    intro st i hi
    simp only [latestLoop] at hi
    revert hi
    split
    · split
      · exact ih st i
      · rename_i hfresh
        split
        · exact fun hi => Or.inl hi
        · split
          · split
            · intro hi
              rcases ih _ i hi with hin | hf
              · simp only [List.mem_append, List.mem_singleton] at hin
                rcases hin with hin | hin
                · exact Or.inl hin
                · subst hin; right; simpa using hfresh
              · rw [existsId_append] at hf
                right
                exact (Bool.or_eq_false_iff.mp hf).1
            · intro hi
              simp only [List.mem_append, List.mem_singleton] at hi
              rcases hi with hi | hi
              · exact Or.inl hi
              · subst hi; right; simpa using hfresh
          · intro hi
            simp only [List.mem_append, List.mem_singleton] at hi
            rcases hi with hi | hi
            · exact Or.inl hi
            · subst hi; right; simpa using hfresh
    · exact fun hi => Or.inl hi

theorem latestLoop_delivered_store (tenv : TransEnv) (send : SendOracle) :
    ∀ (l : List RawArticle) (st : LatestState),
      (∀ a ∈ l, recordable a = true) →
      (∀ i, i ∈ st.deliveredIds → existsId st.store i = true) →
      ∀ i, i ∈ (latestLoop tenv send l st).deliveredIds →
        existsId (latestLoop tenv send l st).store i = true := by
  intro l
  induction l with
  | nil => intro st _ h i hi; simp only [latestLoop] at hi ⊢; exact h i hi
  | cons a rest ih =>
    intro st hrec h i hi
    have hreca : recordable a = true := hrec a (List.mem_cons_self a rest)
    have hrest : ∀ a ∈ rest, recordable a = true :=
      fun x hx => hrec x (List.mem_cons_of_mem a hx)
    simp only [latestLoop] at hi ⊢
    revert hi
    split
    · split
      · exact ih st hrest h i
      · rename_i hfresh
        split
        · exact h i
        · split
          · split
            · intro hi
              refine ih _ hrest ?_ i hi
              intro j hj
              simp only [List.mem_append, List.mem_singleton] at hj
              rcases hj with hj | hj
              · exact existsId_mono _ (h j hj)
              · subst hj
                rw [existsId_append]
                simp [existsId]
            · rename_i hsrc hpub _xp hparse
              exfalso
              simp [recordable, hpub, hparse] at hreca
          · rename_i hnomatch
            exfalso
            simp only [recordable, Bool.and_eq_true, Option.isSome_iff_exists] at hreca
            obtain ⟨⟨srcName, hsrc⟩, hp⟩ := hreca
            rcases hpp : a.publishedAt with _ | p
            · rw [hpp] at hp; simp at hp
            · exact hnomatch srcName p hsrc hpp
    · exact fun hi => Or.inl hi |>.elim (fun hi2 => h i hi2) (fun hi2 => h i hi2)

theorem latestLoop_nodup (tenv : TransEnv) (send : SendOracle) :
    ∀ (l : List RawArticle) (st : LatestState),
      st.deliveredIds.Nodup →
      (∀ i, i ∈ st.deliveredIds → existsId st.store i = true) →
      (latestLoop tenv send l st).deliveredIds.Nodup := by
  intro l
  induction l with
  | nil => intro st hd _; simpa [latestLoop] using hd
  | cons a rest ih =>
    intro st hd h
    have hnotin : ∀ t u, existsId st.store (generate_news_id t u) = false →
        generate_news_id t u ∉ st.deliveredIds := by
      intro t u hf hmem
      rw [h _ hmem] at hf
      cases hf
    simp only [latestLoop]
    split
    · rename_i t u ht hu
      split
      · exact ih st hd h
      · rename_i hfresh
        have hf : existsId st.store (generate_news_id t u) = false := by
          simpa using hfresh
        have hnd2 : (st.deliveredIds ++ [generate_news_id t u]).Nodup := by
          rw [List.nodup_append]
          exact ⟨hd, List.nodup_singleton _,
            fun x hx hmem => by
              simp only [List.mem_singleton] at hmem
              subst hmem
              exact hnotin _ _ hf hx⟩
        split
        · exact hd
        · split
          · split
            · refine ih _ hnd2 ?_
              intro j hj
              simp only [List.mem_append, List.mem_singleton] at hj
              rcases hj with hj | hj
              · exact existsId_mono _ (h j hj)
              · subst hj
                rw [existsId_append]
                simp [existsId]
            · exact hnd2
          · exact hnd2
    · exact hd

theorem latestLoop_uniqueIds (tenv : TransEnv) (send : SendOracle) :
    ∀ (l : List RawArticle) (st : LatestState), uniqueIds st.store →
      uniqueIds (latestLoop tenv send l st).store := by
  intro l
  induction l with
  | nil => intro st h; simpa [latestLoop] using h
  | cons a rest ih =>
    intro st h
    simp only [latestLoop]
    split
    · split
      · exact ih st h
      · rename_i hfresh
        split
        · exact h
        · split
          · split
            · refine ih _ ?_
              simp only [uniqueIds, List.map_append, List.map_cons, List.map_nil] at h ⊢
              rw [List.nodup_append]
              refine ⟨h, List.nodup_singleton _, ?_⟩
              intro x hx hmem
              simp only [List.mem_singleton] at hmem
              subst hmem
              exact hfresh (mem_map_id_iff.mp hx)
            · exact h
          · exact h
    · exact h

theorem latestLoop_replies_ext (tenv : TransEnv) (send : SendOracle) :
    ∀ (l : List RawArticle) (st : LatestState),
      ∃ ext, (latestLoop tenv send l st).replies = st.replies ++ ext ∧
        ∀ m ∈ ext, ∃ tt u, m = latestMessage tt u := by
  intro l
  induction l with
  | nil => intro st; exact ⟨[], by simp [latestLoop], by simp⟩
  | cons a rest ih =>
    intro st
    simp only [latestLoop]
    split
    · rename_i t u ht hu
      split
      · exact ih st
      · split
        · refine ⟨[latestMessage (translate_text tenv t) u], rfl, ?_⟩
          intro m hm
          simp only [List.mem_singleton] at hm
          exact ⟨_, _, hm⟩
        · split
          · split
            · obtain ⟨ext, hext, hall⟩ := ih _
              refine ⟨latestMessage (translate_text tenv t) u :: ext, ?_, ?_⟩
              · rw [hext]; simp
              · intro m hm
                rcases List.mem_cons.mp hm with hm | hm
                · exact ⟨_, _, hm⟩
                · exact hall m hm
            · refine ⟨[latestMessage (translate_text tenv t) u], rfl, ?_⟩
              intro m hm
              simp only [List.mem_singleton] at hm
              exact ⟨_, _, hm⟩
          · refine ⟨[latestMessage (translate_text tenv t) u], rfl, ?_⟩
            intro m hm
            simp only [List.mem_singleton] at hm
            exact ⟨_, _, hm⟩
    · exact ⟨[], by simp, by simp⟩

theorem latestLoop_sent_le_replies (tenv : TransEnv) (send : SendOracle) :
    ∀ (l : List RawArticle) (st : LatestState),
      st.sent_articles.length ≤ st.replies.length →
      (latestLoop tenv send l st).sent_articles.length ≤
        (latestLoop tenv send l st).replies.length := by
  intro l
  induction l with
  | nil => intro st h; simpa [latestLoop] using h
  | cons a rest ih =>
    intro st h
    simp only [latestLoop]
    split
    · split
      · exact ih st h
      · split
        · simp only [List.length_append, List.length_cons, List.length_nil]
          omega
        · split
          · split
            · refine ih _ ?_
              simp only [List.length_append, List.length_cons, List.length_nil]
              omega
            · simp only [List.length_append, List.length_cons, List.length_nil]
              omega
          · simp only [List.length_append, List.length_cons, List.length_nil]
            omega
    · exact h

theorem latestLoop_delivered_shape (tenv : TransEnv) (send : SendOracle) :
    ∀ (l : List RawArticle) (st : LatestState), ∀ m,
      m ∈ (latestLoop tenv send l st).delivered →
      m ∈ st.delivered ∨ ∃ tt u, m = latestMessage tt u := by
  intro l
  induction l with
  | nil => intro st m hm; simp only [latestLoop] at hm; exact Or.inl hm
  | cons a rest ih =>
    intro st m hm
    simp only [latestLoop] at hm
    revert hm
    split
    · split
      · exact ih st m
      · split
        · exact fun hm => Or.inl hm
        · split
          · split
            · intro hm
              rcases ih _ m hm with hin | hmsg
              · simp only [List.mem_append, List.mem_singleton] at hin
                rcases hin with hin | hin
                · exact Or.inl hin
                · exact Or.inr ⟨_, _, hin⟩
              · exact Or.inr hmsg
            · intro hm
              simp only [List.mem_append, List.mem_singleton] at hm
              rcases hm with hm | hm
              · exact Or.inl hm
              · exact Or.inr ⟨_, _, hm⟩
          · intro hm
            simp only [List.mem_append, List.mem_singleton] at hm
            rcases hm with hm | hm
            · exact Or.inl hm
            · exact Or.inr ⟨_, _, hm⟩
    · exact fun hm => Or.inl hm

theorem latestLoop_new_records (tenv : TransEnv) (send : SendOracle) :
    ∀ (l : List RawArticle) (st : LatestState), ∀ r,
      r ∈ (latestLoop tenv send l st).store →
      r ∈ st.store ∨ r.id ∈ (latestLoop tenv send l st).deliveredIds := by
  intro l
  induction l with
  | nil => intro st r hr; simp only [latestLoop] at hr ⊢; exact Or.inl hr
  | cons a rest ih =>
    intro st r hr
    simp only [latestLoop] at hr ⊢
    revert hr
    split
    · split
      · exact ih st r
      · split
        · exact fun hr => Or.inl hr
        · split
          · split
            · intro hr
              rcases ih _ r hr with hin | hdel
              · simp only [List.mem_append, List.mem_singleton] at hin
                rcases hin with hin | hin
                · exact Or.inl hin
                · subst hin
                  right
                  obtain ⟨ext, hext⟩ := latestLoop_deliveredIds_ext tenv send rest _
                  rw [hext]
                  simp
              · exact Or.inr hdel
            · exact fun hr => Or.inl hr
          · exact fun hr => Or.inl hr
    · exact fun hr => Or.inl hr

theorem latestFinish_replies (send : SendOracle) (st : LatestState) :
    ∃ ext, (latestFinish send st).replies = st.replies ++ ext ∧
      ∀ m ∈ ext, m = noNewMsg ∨ m = errorMsg := by
  unfold latestFinish
  split
  · exact ⟨[errorMsg], rfl, by intro m hm; simp only [List.mem_singleton] at hm; exact Or.inr hm⟩
  · split
    · split
      · refine ⟨[noNewMsg, errorMsg], ?_, ?_⟩
        · simp
        · intro m hm
          rcases List.mem_cons.mp hm with hm | hm
          · exact Or.inl hm
          · simp only [List.mem_singleton] at hm
            exact Or.inr hm
      · exact ⟨[noNewMsg], rfl, by intro m hm; simp only [List.mem_singleton] at hm; exact Or.inl hm⟩
    · exact ⟨[], by simp, by simp⟩

theorem latestFinish_commit (send : SendOracle) (st : LatestState) :
    ((latestFinish send st).errored = false →
      (latestFinish send st).committed = (latestFinish send st).store) ∧
    ((latestFinish send st).errored = true →
      (latestFinish send st).committed = st.committed) := by
  unfold latestFinish
  split
  · rename_i herr
    exact ⟨fun h => absurd h (by simp [herr]), fun _ => rfl⟩
  · rename_i herr
    split
    · split
      · exact ⟨fun h => absurd h (by simp), fun _ => rfl⟩
      · exact ⟨fun _ => rfl, fun h => absurd h (by simpa using herr)⟩
    · exact ⟨fun _ => rfl, fun h => absurd h (by simpa using herr)⟩

theorem latestFinish_errored_of (send : SendOracle) (st : LatestState)
    (h : st.errored = true) : (latestFinish send st).errored = true := by
  simp [latestFinish, h]

/-! ## Concrete fixtures for counterexamples and witnesses -/

/-- A well-formed candidate article. -/
def artA : RawArticle := ⟨some "Alpha", some "u1", some "S1", some "2020-12-31T10:05:00Z"⟩

/-- A second well-formed candidate article. -/
def artB : RawArticle := ⟨some "Beta", some "u2", some "S2", some "2021-01-01T09:00:00Z"⟩

/-- A candidate whose `publishedAt` does not parse. -/
def artBadDate : RawArticle := ⟨some "Gamma", some "u3", some "S3", some "oops"⟩

/-- A translation environment in which every call fails. -/
def tenvNone : TransEnv := fun _ => TransResp.exn

/-- A transport in which every send succeeds. -/
def sendAll : SendOracle := fun _ => true

/-- A transport that fails exactly on the scheduled-mode message of `artA`. -/
def sendFailA : SendOracle :=
  fun m => !(m == checkMessage "Alpha" "S1" "31.12.2020 10:05" "u1")

/-- A transport that fails exactly on the on-demand message of `artB`. -/
def sendFailB : SendOracle := fun m => !(m == latestMessage "Beta" "u2")

theorem check_news_empty (fenv : FetchResp) (tenv : TransEnv) (send : SendOracle)
    (store comm : List Record) (h : (fetch_bitcoin_news fenv).isEmpty = true) :
    check_and_send_news fenv tenv send store comm = ⟨store, comm, [], [], false⟩ := by
  simp [check_and_send_news, h]

theorem check_news_eq_loop (fenv : FetchResp) (tenv : TransEnv) (send : SendOracle)
    (store comm : List Record) (h : (fetch_bitcoin_news fenv).isEmpty = false) :
    check_and_send_news fenv tenv send store comm =
      sendLoop tenv send (filterNew store (fetch_bitcoin_news fenv))
        ⟨store, comm, [], [], false⟩ := by
  simp [check_and_send_news, h]

theorem latest_news_empty (fenv : FetchResp) (tenv : TransEnv) (send : SendOracle)
    (store comm : List Record) (h : ((fetch_bitcoin_news fenv).take 5).isEmpty = true) :
    latest_news fenv tenv send store comm =
      if send notFoundMsg = false then
        ⟨store, comm, [notFoundMsg, errorMsg], [], [], [], true⟩
      else ⟨store, comm, [notFoundMsg], [], [], [], false⟩ := by
  by_cases hs : send notFoundMsg = false <;> simp [latest_news, h, hs]

theorem latest_news_eq_finish (fenv : FetchResp) (tenv : TransEnv) (send : SendOracle)
    (store comm : List Record) (h : ((fetch_bitcoin_news fenv).take 5).isEmpty = false) :
    latest_news fenv tenv send store comm =
      latestFinish send (latestLoop tenv send ((fetch_bitcoin_news fenv).take 5)
        ⟨store, comm, [], [], [], [], false⟩) := by
  simp [latest_news, h]

/-! ## Claims -/

/-- Claim C3, counterexample: `generate_news_id` hashes the bare
concatenation `title ++ url`, so the distinct pairs `("ab","c")` and
`("a","bc")` collide — the claimed injectivity on pairs is false. -/
theorem c3_counterexample :
    generate_news_id "ab" "c" = generate_news_id "a" "bc" ∧
    ("ab", "c") ≠ ("a", "bc") := by
  exact ⟨rfl, by decide⟩

/-- Claim C3, amended: `generate_news_id` is a pure deterministic function
of `(title, url)` — equal pairs yield equal fingerprints — but the
fingerprint depends only on the concatenation `title ++ url`: any two
pairs, distinct or not, whose concatenations coincide yield the same
fingerprint, so distinct pairs need not yield distinct fingerprints. -/
theorem c3_amended (t1 u1 t2 u2 : String) :
    (t1 = t2 → u1 = u2 → generate_news_id t1 u1 = generate_news_id t2 u2) ∧
    (t1 ++ u1 = t2 ++ u2 → generate_news_id t1 u1 = generate_news_id t2 u2) := by
  constructor
  · rintro rfl rfl; rfl
  · intro h
    unfold generate_news_id
    rw [h]

/-- Witness for `c3_amended` at the concrete colliding pairs. -/
theorem c3_witness :
    ("ab" : String) ++ "c" = "a" ++ "bc" ∧
    generate_news_id "ab" "c" = generate_news_id "a" "bc" :=
  ⟨by decide, (c3_amended "ab" "c" "a" "bc").2 (by decide)⟩

/-- Claim C7, confirmed: `translate_text` returns its input unchanged with
no HTTP call on (all-whitespace or) empty input, returns the input
unchanged on every failure — a raised exception, a missing
`responseStatus` field, a non-200 `responseStatus`, or a 200 status with a
missing `translatedText` — and in total either returns the input or the
translation of a well-formed 200 response; being a total function, it
never raises to its caller. -/
theorem c7_translate_fallback (env : TransEnv) (text : String) :
    (stripIsEmpty text = true → translate_run env text = (text, 0)) ∧
    (env text = .exn → translate_text env text = text) ∧
    (∀ pl, env text = .json none pl → translate_text env text = text) ∧
    (∀ st pl, env text = .json (some st) pl → st ≠ 200 →
      translate_text env text = text) ∧
    (env text = .json (some 200) none → translate_text env text = text) ∧
    (translate_text env text = text ∨
      ∃ p, env text = .json (some 200) (some p) ∧ translate_text env text = p) := by
  refine ⟨fun h => by simp [translate_run, h], ?_, ?_, ?_, ?_, ?_⟩
  · intro h
    by_cases hs : stripIsEmpty text = true <;>
      simp [translate_text, translate_run, hs, h]
  · intro pl h
    by_cases hs : stripIsEmpty text = true <;>
      simp [translate_text, translate_run, hs, h]
  · intro st pl h hne
    by_cases hs : stripIsEmpty text = true <;>
      simp [translate_text, translate_run, hs, h, hne]
  · intro h
    by_cases hs : stripIsEmpty text = true <;>
      simp [translate_text, translate_run, hs, h]
  · by_cases hs : stripIsEmpty text = true
    · exact Or.inl (by simp [translate_text, translate_run, hs])
    · rcases henv : env text with _ | ⟨st, pl⟩
      · exact Or.inl (by simp [translate_text, translate_run, hs, henv])
      · rcases st with _ | st
        · exact Or.inl (by simp [translate_text, translate_run, hs, henv])
        · by_cases h200 : st = 200
          · subst h200
            rcases pl with _ | p
            · exact Or.inl (by simp [translate_text, translate_run, hs, henv])
            · exact Or.inr ⟨p, rfl, by simp [translate_text, translate_run, hs, henv]⟩
          · exact Or.inl (by simp [translate_text, translate_run, hs, henv, h200])

/-- Witness for `c7_translate_fallback`: empty input makes no call, and a
failing call returns the input unchanged. -/
theorem c7_witness :
    stripIsEmpty "" = true ∧ translate_run tenvNone "" = ("", 0) ∧
    tenvNone "hello" = TransResp.exn ∧ translate_text tenvNone "hello" = "hello" :=
  ⟨by decide, (c7_translate_fallback tenvNone "").1 (by decide), rfl,
    (c7_translate_fallback tenvNone "hello").2.1 rfl⟩

/-- Claim C8, confirmed: `fetch_bitcoin_news` returns `[]` on a raised
exception and on a body without an `articles` key, and a run (of either
handler) whose fetch yields no articles delivers nothing, writes nothing
to the store, commits nothing, and does not raise past the run boundary
(the scheduled run ends in the clean no-op state with `errored = false`). -/
theorem c8_fetch_failure_noop :
    (fetch_bitcoin_news .exn = []) ∧
    (fetch_bitcoin_news (.ok none) = []) ∧
    (∀ fenv tenv send store comm, fetch_bitcoin_news fenv = [] →
      check_and_send_news fenv tenv send store comm = ⟨store, comm, [], [], false⟩) ∧
    (∀ fenv tenv send store comm, fetch_bitcoin_news fenv = [] →
      (latest_news fenv tenv send store comm).store = store ∧
      (latest_news fenv tenv send store comm).committed = comm ∧
      (latest_news fenv tenv send store comm).delivered = [] ∧
      (latest_news fenv tenv send store comm).deliveredIds = []) := by
  refine ⟨rfl, rfl, ?_, ?_⟩
  · intro fenv tenv send store comm h
    exact check_news_empty fenv tenv send store comm (by simp [h])
  · intro fenv tenv send store comm h
    rw [latest_news_empty fenv tenv send store comm (by simp [h])]
    by_cases hs : send notFoundMsg = false <;> simp [hs]

/-- Witness for `c8_fetch_failure_noop` at a failing fetch. -/
theorem c8_witness :
    fetch_bitcoin_news .exn = [] ∧
    check_and_send_news .exn tenvNone sendAll [] [] = ⟨[], [], [], [], false⟩ ∧
    (latest_news .exn tenvNone sendAll [] []).delivered = [] :=
  ⟨rfl, c8_fetch_failure_noop.2.2.1 .exn tenvNone sendAll [] [] rfl,
    (c8_fetch_failure_noop.2.2.2 .exn tenvNone sendAll [] [] rfl).2.2.1⟩

/-- Claim C10, confirmed: table creation is idempotent and preserves
existing records; both handlers only ever append to the `news` table
(never update or delete), and when every fingerprint occurs at most once
in the store this uniqueness is preserved by every run (inserts are
guarded by the membership check / PRIMARY KEY failure). -/
theorem c10_store_insert_only :
    (initTable none = [] ∧ ∀ s, initTable (some s) = s) ∧
    (∀ fenv tenv send store comm,
      (∃ ext, (check_and_send_news fenv tenv send store comm).store = store ++ ext) ∧
      (uniqueIds store → uniqueIds (check_and_send_news fenv tenv send store comm).store)) ∧
    (∀ fenv tenv send store comm,
      (∃ ext, (latest_news fenv tenv send store comm).store = store ++ ext) ∧
      (uniqueIds store → uniqueIds (latest_news fenv tenv send store comm).store)) := by
  refine ⟨⟨rfl, fun s => rfl⟩, ?_, ?_⟩
  · intro fenv tenv send store comm
    by_cases h : (fetch_bitcoin_news fenv).isEmpty
    · rw [check_news_empty fenv tenv send store comm h]
      exact ⟨⟨[], by simp⟩, fun hu => hu⟩
    · rw [check_news_eq_loop fenv tenv send store comm (by simpa using h)]
      exact ⟨sendLoop_store_ext tenv send _ _, fun hu => sendLoop_uniqueIds tenv send _ _ hu⟩
  · intro fenv tenv send store comm
    by_cases h : ((fetch_bitcoin_news fenv).take 5).isEmpty
    · rw [latest_news_empty fenv tenv send store comm h]
      by_cases hs : send notFoundMsg = false <;> simp [hs]
    · rw [latest_news_eq_finish fenv tenv send store comm (by simpa using h)]
      rw [latestFinish_store]
      exact ⟨latestLoop_store_ext tenv send _ _, fun hu => latestLoop_uniqueIds tenv send _ _ hu⟩

/-- Witness for `c10_store_insert_only`: uniqueness is preserved on a
concrete run that inserts a record. -/
theorem c10_witness :
    uniqueIds [] ∧
    uniqueIds (check_and_send_news (.ok (some [artA])) tenvNone sendAll [] []).store :=
  ⟨by simp [uniqueIds],
    (c10_store_insert_only.2.1 (.ok (some [artA])) tenvNone sendAll [] []).2
      (by simp [uniqueIds])⟩

/-- The `new_articles` entry built from `artA`. -/
def nAlpha : NewsItem :=
  ⟨generate_news_id "Alpha" "u1", "Alpha", "u1", "S1", ⟨2020, 12, 31, 10, 5, 0⟩⟩

/-- A `news`-table row carrying `artA`'s fingerprint. -/
def recAlpha : Record :=
  ⟨generate_news_id "Alpha" "u1", "Alpha", "Alpha", "u1", "S1", ⟨2020, 12, 31, 10, 5, 0⟩⟩

/-- Claim C2, counterexample: in `check_and_send_news`, a transport
failure on the first candidate's send aborts the whole batch — nothing is
delivered, although the second candidate parses fine and its own send
would have succeeded; and in `latest_news`, a per-candidate record-step
failure (unparsable `publishedAt` discovered after the reply) likewise
aborts the batch, leaving the healthy second candidate undelivered.  The
claimed per-candidate containment is absent in both pipelines. -/
theorem c2_counterexample :
    (check_and_send_news (.ok (some [artA, artB])) tenvNone sendFailA [] []).deliveredIds = [] ∧
    (check_and_send_news (.ok (some [artA, artB])) tenvNone sendFailA [] []).errored = true ∧
    (parseCheckArticle artB).isSome = true ∧
    sendFailA (checkMessage "Beta" "S2" "01.01.2021 09:00" "u2") = true ∧
    (latest_news (.ok (some [artBadDate, artB])) tenvNone sendAll [] []).deliveredIds =
      [generate_news_id "Gamma" "u3"] ∧
    (latest_news (.ok (some [artBadDate, artB])) tenvNone sendAll [] []).errored = true := by
  decide

/-- Claim C2, amended: per-candidate error containment holds only for the
identify/filter phase of `check_and_send_news` — a candidate whose parse
fails is skipped and the remaining candidates are classified exactly as if
it were absent.  An exception in the deliver step (a failed send) or in
the record step (the duplicate-key INSERT failure) of
`check_and_send_news` aborts the remaining candidates of the batch, and
in `latest_news` any per-candidate exception — a missing `title` or
`url`, a failed reply, or a missing `source` / missing-or-unparsable
`publishedAt` discovered after the reply — aborts the remaining
candidates of the batch: the run on `a :: rest` ends exactly where the
run on `[a]` alone does, with the handler's outer `except` triggered. -/
theorem c2_amended :
    (∀ (store : List Record) (xs ys : List RawArticle) (bad : RawArticle),
      parseCheckArticle bad = none →
      filterNew store (xs ++ bad :: ys) = filterNew store (xs ++ ys)) ∧
    (∀ (tenv : TransEnv) (send : SendOracle) (n : NewsItem) (rest : List NewsItem)
      (st : RunState),
      send (checkMessage (translate_text tenv n.title) n.source
        (formatDMYHM n.published_at) n.url) = false →
      sendLoop tenv send (n :: rest) st = { st with errored := true }) ∧
    (∀ (tenv : TransEnv) (send : SendOracle) (n : NewsItem) (rest : List NewsItem)
      (st : RunState),
      send (checkMessage (translate_text tenv n.title) n.source
        (formatDMYHM n.published_at) n.url) = true →
      existsId st.store n.id = true →
      sendLoop tenv send (n :: rest) st =
        { st with
            delivered := st.delivered ++ [checkMessage (translate_text tenv n.title)
              n.source (formatDMYHM n.published_at) n.url],
            deliveredIds := st.deliveredIds ++ [n.id],
            errored := true }) ∧
    (∀ (tenv : TransEnv) (send : SendOracle) (a : RawArticle) (rest : List RawArticle)
      (st : LatestState),
      (a.title = none ∨ a.url = none ∨
        (∃ t u, a.title = some t ∧ a.url = some u ∧
          existsId st.store (generate_news_id t u) = false ∧
          (send (latestMessage (translate_text tenv t) u) = false ∨
            recordable a = false))) →
      latestLoop tenv send (a :: rest) st = latestLoop tenv send [a] st ∧
      (latestLoop tenv send (a :: rest) st).errored = true) := by
  refine ⟨filterNew_skip, ?_, ?_, ?_⟩
  · intro tenv send n rest st h
    simp [sendLoop, h]
  · intro tenv send n rest st hsend hdup
    simp [sendLoop, hsend, hdup]
  · intro tenv send a rest st hcase
    rcases hcase with hT | hU | ⟨t, u, hT, hU, hfresh, hfail⟩
    · rcases hU : a.url with _ | u <;>
        exact ⟨by simp [latestLoop, hT, hU], by simp [latestLoop, hT, hU]⟩
    · rcases hT : a.title with _ | t <;>
        exact ⟨by simp [latestLoop, hT, hU], by simp [latestLoop, hT, hU]⟩
    · rcases hfail with hsend | hrec
      · exact ⟨by simp [latestLoop, hT, hU, hfresh, hsend],
          by simp [latestLoop, hT, hU, hfresh, hsend]⟩
      · by_cases hsend : send (latestMessage (translate_text tenv t) u) = false
        · exact ⟨by simp [latestLoop, hT, hU, hfresh, hsend],
            by simp [latestLoop, hT, hU, hfresh, hsend]⟩
        · rcases hS : a.source with _ | s
          · rcases hP : a.publishedAt with _ | p <;>
              exact ⟨by simp [latestLoop, hT, hU, hfresh, hsend, hS, hP],
                by simp [latestLoop, hT, hU, hfresh, hsend, hS, hP]⟩
          · rcases hP : a.publishedAt with _ | p
            · exact ⟨by simp [latestLoop, hT, hU, hfresh, hsend, hS, hP],
                by simp [latestLoop, hT, hU, hfresh, hsend, hS, hP]⟩
            · have hparse : parseDateTime p = none := by
                rcases hq : parseDateTime p with _ | d
                · rfl
                · exfalso
                  simp [recordable, hS, hP, hq] at hrec
              exact ⟨by simp [latestLoop, hT, hU, hfresh, hsend, hS, hP, hparse],
                by simp [latestLoop, hT, hU, hfresh, hsend, hS, hP, hparse]⟩

/-- Witness for `c2_amended`: a malformed candidate between two good ones
changes nothing in the classification; a send failure on the head of the
batch aborts with only `errored` set; a duplicate-key INSERT on the head
aborts after the (second) delivery; and in `latest_news` a head candidate
with an unparsable `publishedAt` makes the run on the two-candidate batch
end exactly where the run on that candidate alone does, with the error
flag set. -/
theorem c2_witness :
    parseCheckArticle artBadDate = none ∧
    filterNew [] [artA, artBadDate, artB] = filterNew [] [artA, artB] ∧
    sendLoop tenvNone sendFailA [nAlpha] ⟨[], [], [], [], false⟩ = ⟨[], [], [], [], true⟩ ∧
    sendAll (checkMessage (translate_text tenvNone nAlpha.title) nAlpha.source
      (formatDMYHM nAlpha.published_at) nAlpha.url) = true ∧
    existsId [recAlpha] nAlpha.id = true ∧
    sendLoop tenvNone sendAll [nAlpha] ⟨[recAlpha], [], [], [], false⟩ =
      { (⟨[recAlpha], [], [], [], false⟩ : RunState) with
          delivered := [] ++ [checkMessage (translate_text tenvNone nAlpha.title)
            nAlpha.source (formatDMYHM nAlpha.published_at) nAlpha.url],
          deliveredIds := [] ++ [nAlpha.id],
          errored := true } ∧
    latestLoop tenvNone sendAll [artBadDate, artB] ⟨[], [], [], [], [], [], false⟩ =
      latestLoop tenvNone sendAll [artBadDate] ⟨[], [], [], [], [], [], false⟩ ∧
    (latestLoop tenvNone sendAll [artBadDate, artB] ⟨[], [], [], [], [], [], false⟩).errored
      = true :=
  ⟨by decide,
    c2_amended.1 [] [artA] [artB] artBadDate (by decide),
    c2_amended.2.1 tenvNone sendFailA nAlpha [] ⟨[], [], [], [], false⟩ (by decide),
    by decide,
    by decide,
    c2_amended.2.2.1 tenvNone sendAll nAlpha [] ⟨[recAlpha], [], [], [], false⟩
      (by decide) (by decide),
    (c2_amended.2.2.2 tenvNone sendAll artBadDate [artB] ⟨[], [], [], [], [], [], false⟩
      (Or.inr (Or.inr ⟨"Gamma", "u3", rfl, rfl, by decide, Or.inr (by decide)⟩))).1,
    (c2_amended.2.2.2 tenvNone sendAll artBadDate [artB] ⟨[], [], [], [], [], [], false⟩
      (Or.inr (Or.inr ⟨"Gamma", "u3", rfl, rfl, by decide, Or.inr (by decide)⟩))).2⟩

/-- Claim C4, counterexample: when the fetched batch contains the same
`(title, url)` twice, `check_and_send_news` classifies both copies as new
(the filter loop checks only the store, which does not change during that
loop), delivers the same fingerprint twice, and then aborts on the
duplicate INSERT — at-most-once delivery per fingerprint per run fails. -/
theorem c4_counterexample :
    (check_and_send_news (.ok (some [artA, artA])) tenvNone sendAll [] []).deliveredIds =
      [generate_news_id "Alpha" "u1", generate_news_id "Alpha" "u1"] ∧
    (check_and_send_news (.ok (some [artA, artA])) tenvNone sendAll [] []).errored = true := by
  decide

/-- Claim C4, amended: within a single run, `latest_news` delivers each
fingerprint at most once even when the batch repeats a `(title, url)` pair
(its membership check runs against the store updated in the same loop),
while `check_and_send_news` guarantees it only when the new candidates of
the batch have pairwise-distinct fingerprints; with intra-batch duplicates
the duplicate is re-delivered before the record step aborts the run. -/
theorem c4_amended :
    (∀ fenv tenv send store comm i,
      (latest_news fenv tenv send store comm).deliveredIds.count i ≤ 1) ∧
    (∀ fenv tenv send store comm i,
      ((filterNew store (fetch_bitcoin_news fenv)).map NewsItem.id).Nodup →
      (check_and_send_news fenv tenv send store comm).deliveredIds.count i ≤ 1) := by
  constructor
  · intro fenv tenv send store comm i
    by_cases h : ((fetch_bitcoin_news fenv).take 5).isEmpty
    · rw [latest_news_empty _ _ _ _ _ h]
      by_cases hs : send notFoundMsg = false
      · rw [if_pos hs]; simp
      · rw [if_neg hs]; simp
    · rw [latest_news_eq_finish _ _ _ _ _ (by simpa using h)]
      rw [latestFinish_deliveredIds]
      have hnd : (latestLoop tenv send ((fetch_bitcoin_news fenv).take 5)
          ⟨store, comm, [], [], [], [], false⟩).deliveredIds.Nodup :=
        latestLoop_nodup tenv send _ _ List.nodup_nil (by intro j hj; cases hj)
      exact List.nodup_iff_count_le_one.mp hnd i
  · intro fenv tenv send store comm i hnd
    by_cases h : (fetch_bitcoin_news fenv).isEmpty
    · rw [check_news_empty _ _ _ _ _ h]; simp
    · rw [check_news_eq_loop _ _ _ _ _ (by simpa using h)]
      obtain ⟨m, hm⟩ := sendLoop_deliveredIds_take tenv send
        (filterNew store (fetch_bitcoin_news fenv)) ⟨store, comm, [], [], false⟩
      rw [hm]
      simp only [List.nil_append]
      have : (((filterNew store (fetch_bitcoin_news fenv)).map NewsItem.id).take m).Nodup :=
        List.Nodup.sublist (List.take_sublist m _) hnd
      exact List.nodup_iff_count_le_one.mp this i

/-- Witness for `c4_amended` on a concrete duplicate-free batch. -/
theorem c4_witness :
    ((filterNew [] (fetch_bitcoin_news (.ok (some [artA, artB])))).map NewsItem.id).Nodup ∧
    (check_and_send_news (.ok (some [artA, artB])) tenvNone sendAll [] []).deliveredIds.count
      (generate_news_id "Alpha" "u1") ≤ 1 :=
  ⟨by decide,
    c4_amended.2 (.ok (some [artA, artB])) tenvNone sendAll [] []
      (generate_news_id "Alpha" "u1") (by decide)⟩

/-- Claim C5, counterexample: `latest_news` commits only once, at the end
of a fully successful pass.  With a first healthy candidate and a second
whose `publishedAt` fails to parse after its reply was sent, the run
raises: the record inserted for the first (delivered) article stays in the
connection's uncommitted state and nothing reaches the durable store —
contradicting per-operation durability, and allowing re-delivery after a
restart from the committed state. -/
theorem c5_counterexample :
    (latest_news (.ok (some [artA, artBadDate])) tenvNone sendAll [] []).store ≠ [] ∧
    (latest_news (.ok (some [artA, artBadDate])) tenvNone sendAll [] []).committed = [] ∧
    (latest_news (.ok (some [artA, artBadDate])) tenvNone sendAll [] []).errored = true ∧
    generate_news_id "Alpha" "u1" ∈
      (latest_news (.ok (some [artA, artBadDate])) tenvNone sendAll [] []).deliveredIds := by
  decide

/-- Claim C5, amended: in `check_and_send_news` every insert is followed
immediately by a commit, so (starting from a state with no pending
writes) the committed state always equals the working store, even when
the run aborts mid-batch; in `latest_news` the single commit runs only at
the end of a successful pass — on a clean run the inserts become durable,
but when the run raises, everything inserted during it remains
uncommitted (the durable state is exactly the pre-run committed state). -/
theorem c5_amended :
    (∀ fenv tenv send store,
      (check_and_send_news fenv tenv send store store).committed =
        (check_and_send_news fenv tenv send store store).store) ∧
    (∀ fenv tenv send store,
      (latest_news fenv tenv send store store).errored = false →
      (latest_news fenv tenv send store store).committed =
        (latest_news fenv tenv send store store).store) ∧
    (∀ fenv tenv send store comm,
      (latest_news fenv tenv send store comm).errored = true →
      (latest_news fenv tenv send store comm).committed = comm) := by
  refine ⟨?_, ?_, ?_⟩
  · intro fenv tenv send store
    by_cases h : (fetch_bitcoin_news fenv).isEmpty
    · rw [check_news_empty _ _ _ _ _ h]
    · rw [check_news_eq_loop _ _ _ _ _ (by simpa using h)]
      exact sendLoop_commit tenv send _ _ rfl
  · intro fenv tenv send store herr
    by_cases h : ((fetch_bitcoin_news fenv).take 5).isEmpty
    · rw [latest_news_empty _ _ _ _ _ h] at herr ⊢
      by_cases hs : send notFoundMsg = false
      · rw [if_pos hs] at herr; cases herr
      · rw [if_neg hs]
    · rw [latest_news_eq_finish _ _ _ _ _ (by simpa using h)] at herr ⊢
      exact (latestFinish_commit _ _).1 herr
  · intro fenv tenv send store comm herr
    by_cases h : ((fetch_bitcoin_news fenv).take 5).isEmpty
    · rw [latest_news_empty _ _ _ _ _ h]
      by_cases hs : send notFoundMsg = false
      · rw [if_pos hs]
      · rw [if_neg hs]
    · rw [latest_news_eq_finish _ _ _ _ _ (by simpa using h)] at herr ⊢
      rw [(latestFinish_commit _ _).2 herr]
      exact latestLoop_committed tenv send _ _

/-- Witness for `c5_amended`: a clean `latest_news` run commits its
insert, and an aborted one leaves the durable state untouched. -/
theorem c5_witness :
    (latest_news (.ok (some [artA])) tenvNone sendAll [] []).errored = false ∧
    (latest_news (.ok (some [artA])) tenvNone sendAll [] []).committed =
      (latest_news (.ok (some [artA])) tenvNone sendAll [] []).store ∧
    (latest_news (.ok (some [artA, artBadDate])) tenvNone sendAll [] []).errored = true ∧
    (latest_news (.ok (some [artA, artBadDate])) tenvNone sendAll [] []).committed = [] :=
  ⟨by decide, c5_amended.2.1 (.ok (some [artA])) tenvNone sendAll [] (by decide),
    by decide, c5_amended.2.2 (.ok (some [artA, artBadDate])) tenvNone sendAll [] []
      (by decide)⟩

/-- Claim C6, counterexample: the on-demand message for a delivered
article contains only the (translated) title and the link; the source name
and the `DD.MM.YYYY HH:MM` date of the same article do not occur in it,
although the scheduled-mode message for the identical article carries all
four fields. -/
theorem c6_counterexample :
    (latest_news (.ok (some [artA])) tenvNone sendAll [] []).delivered =
      ["📰 *Alpha*\n[Читать статью](u1)"] ∧
    strContains "📰 *Alpha*\n[Читать статью](u1)" "S1" = false ∧
    strContains "📰 *Alpha*\n[Читать статью](u1)" "31.12.2020 10:05" = false ∧
    (check_and_send_news (.ok (some [artA])) tenvNone sendAll [] []).delivered =
      [checkMessage "Alpha" "S1" "31.12.2020 10:05" "u1"] := by
  decide

/-- Claim C6, amended: every message delivered by the scheduled handler
has the full format — translated title, source name, publish date
formatted `DD.MM.YYYY HH:MM`, and the link to the original article —
while every message delivered by the on-demand handler has the reduced
format containing only the translated title and the link. -/
theorem c6_amended :
    (∀ fenv tenv send store comm m,
      m ∈ (check_and_send_news fenv tenv send store comm).delivered →
      ∃ n, n ∈ filterNew store (fetch_bitcoin_news fenv) ∧
        m = checkMessage (translate_text tenv n.title) n.source
          (formatDMYHM n.published_at) n.url) ∧
    (∀ fenv tenv send store comm m,
      m ∈ (latest_news fenv tenv send store comm).delivered →
      ∃ tt u, m = latestMessage tt u) := by
  constructor
  · intro fenv tenv send store comm m hm
    by_cases h : (fetch_bitcoin_news fenv).isEmpty
    · rw [check_news_empty _ _ _ _ _ h] at hm; cases hm
    · rw [check_news_eq_loop _ _ _ _ _ (by simpa using h)] at hm
      rcases sendLoop_delivered_shape tenv send _ _ m hm with hin | hshape
      · cases hin
      · exact hshape
  · intro fenv tenv send store comm m hm
    by_cases h : ((fetch_bitcoin_news fenv).take 5).isEmpty
    · rw [latest_news_empty _ _ _ _ _ h] at hm
      by_cases hs : send notFoundMsg = false
      · rw [if_pos hs] at hm; cases hm
      · rw [if_neg hs] at hm; cases hm
    · rw [latest_news_eq_finish _ _ _ _ _ (by simpa using h)] at hm
      rw [latestFinish_delivered] at hm
      rcases latestLoop_delivered_shape tenv send _ _ m hm with hin | hshape
      · cases hin
      · exact hshape

/-- Witness for `c6_amended` on a concrete delivered message. -/
theorem c6_witness :
    checkMessage "Alpha" "S1" "31.12.2020 10:05" "u1" ∈
      (check_and_send_news (.ok (some [artA])) tenvNone sendAll [] []).delivered ∧
    ∃ n, n ∈ filterNew [] (fetch_bitcoin_news (.ok (some [artA]))) ∧
      checkMessage "Alpha" "S1" "31.12.2020 10:05" "u1" =
        checkMessage (translate_text tenvNone n.title) n.source
          (formatDMYHM n.published_at) n.url :=
  ⟨by decide,
    c6_amended.1 (.ok (some [artA])) tenvNone sendAll [] [] _ (by decide)⟩

/-- Claim C9, counterexample: a single `latest_news` invocation can both
deliver formatted items and reply with the error message — with a healthy
first candidate and a transport failure on the second candidate's reply,
the user receives one formatted item *and* the error reply, so the outcome
is not "exactly one of" the three kinds. -/
theorem c9_counterexample :
    (latest_news (.ok (some [artA, artB])) tenvNone sendFailB [] []).delivered =
      ["📰 *Alpha*\n[Читать статью](u1)"] ∧
    errorMsg ∈ (latest_news (.ok (some [artA, artB])) tenvNone sendFailB [] []).replies := by
  decide

/-- Claim C9, amended: every `latest_news` invocation attempts at least
one textual reply, every reply it attempts is one of the four kinds — a
formatted news item, the "no news found" message, the "nothing new"
message, or the error message — and the run processes at most the top 5
fetched candidates (its outcome is unchanged if the fetch result is
truncated to 5).  When processing fails after some items were already
sent, the user receives both those items and the error message. -/
theorem c9_amended (fenv : FetchResp) (tenv : TransEnv) (send : SendOracle)
    (store comm : List Record) :
    (latest_news fenv tenv send store comm).replies ≠ [] ∧
    (∀ m ∈ (latest_news fenv tenv send store comm).replies,
      (∃ tt u, m = latestMessage tt u) ∨ m = notFoundMsg ∨ m = noNewMsg ∨ m = errorMsg) ∧
    latest_news fenv tenv send store comm =
      latest_news (.ok (some ((fetch_bitcoin_news fenv).take 5))) tenv send store comm := by
  refine ⟨?_, ?_, ?_⟩
  · by_cases h : ((fetch_bitcoin_news fenv).take 5).isEmpty
    · rw [latest_news_empty _ _ _ _ _ h]
      by_cases hs : send notFoundMsg = false
      · rw [if_pos hs]; simp
      · rw [if_neg hs]; simp
    · rw [latest_news_eq_finish _ _ _ _ _ (by simpa using h)]
      unfold latestFinish
      split
      · simp
      · split
        · split
          · simp
          · simp
        · rename_i hsent
          have hle := latestLoop_sent_le_replies tenv send
            ((fetch_bitcoin_news fenv).take 5) ⟨store, comm, [], [], [], [], false⟩
            (by simp)
          intro hnil
          simp only at hnil
          rw [hnil] at hle
          simp only [List.length_nil, Nat.le_zero, List.length_eq_zero] at hle
          rw [hle] at hsent
          simp at hsent
  · by_cases h : ((fetch_bitcoin_news fenv).take 5).isEmpty
    · rw [latest_news_empty _ _ _ _ _ h]
      by_cases hs : send notFoundMsg = false
      · rw [if_pos hs]
        intro m hm
        rcases List.mem_cons.mp hm with hm | hm
        · exact Or.inr (Or.inl hm)
        · simp only [List.mem_singleton] at hm
          exact Or.inr (Or.inr (Or.inr hm))
      · rw [if_neg hs]
        intro m hm
        simp only [List.mem_singleton] at hm
        exact Or.inr (Or.inl hm)
    · rw [latest_news_eq_finish _ _ _ _ _ (by simpa using h)]
      obtain ⟨ext2, hre2, hall2⟩ := latestFinish_replies send
        (latestLoop tenv send ((fetch_bitcoin_news fenv).take 5)
          ⟨store, comm, [], [], [], [], false⟩)
      obtain ⟨ext1, hre1, hall1⟩ := latestLoop_replies_ext tenv send
        ((fetch_bitcoin_news fenv).take 5) ⟨store, comm, [], [], [], [], false⟩
      intro m hm
      rw [hre2] at hm
      rcases List.mem_append.mp hm with hm | hm
      · rw [hre1] at hm
        simp only [List.nil_append] at hm
        exact Or.inl (hall1 m hm)
      · rcases hall2 m hm with hmm | hmm
        · exact Or.inr (Or.inr (Or.inl hmm))
        · exact Or.inr (Or.inr (Or.inr hmm))
  · simp [latest_news, fetch_bitcoin_news, List.take_take]

/-- Witness for `c9_amended` at a concrete empty fetch. -/
theorem c9_witness :
    notFoundMsg ∈ (latest_news .exn tenvNone sendAll [] []).replies ∧
    ((∃ tt u, notFoundMsg = latestMessage tt u) ∨ notFoundMsg = notFoundMsg ∨
      notFoundMsg = noNewMsg ∨ notFoundMsg = errorMsg) :=
  ⟨by decide, (c9_amended .exn tenvNone sendAll [] []).2.1 notFoundMsg (by decide)⟩

/-- A transport that fails exactly on the on-demand message of `artA`. -/
def sendFailLA : SendOracle := fun m => !(m == latestMessage "Alpha" "u1")

/-- First scheduled run of a two-run sequence over a fixed candidate set. -/
def run1C (arts : List RawArticle) (store comm : List Record)
    (t1 : TransEnv) (s1 : SendOracle) : RunState :=
  check_and_send_news (.ok (some arts)) t1 s1 store comm

/-- Second scheduled run, against the store left by the first run. -/
def run2C (arts : List RawArticle) (store comm : List Record)
    (t1 t2 : TransEnv) (s1 s2 : SendOracle) : RunState :=
  check_and_send_news (.ok (some arts)) t2 s2
    (run1C arts store comm t1 s1).store (run1C arts store comm t1 s1).committed

/-- First on-demand run of a two-run sequence over a fixed candidate set. -/
def run1L (arts : List RawArticle) (store comm : List Record)
    (t1 : TransEnv) (s1 : SendOracle) : LatestState :=
  latest_news (.ok (some arts)) t1 s1 store comm

/-- Second on-demand run, against the store left by the first run. -/
def run2L (arts : List RawArticle) (store comm : List Record)
    (t1 t2 : TransEnv) (s1 s2 : SendOracle) : LatestState :=
  latest_news (.ok (some arts)) t2 s2
    (run1L arts store comm t1 s1).store (run1L arts store comm t1 s1).committed

/-- Claim C1, counterexample: `latest_news` replies with an article's
message *before* evaluating the INSERT arguments, so a candidate whose
`publishedAt` does not parse is delivered and then the run aborts without
recording it — and the identical second run delivers the very same item
again. -/
theorem c1_counterexample :
    (run1L [artBadDate] [] [] tenvNone sendAll).deliveredIds =
      [generate_news_id "Gamma" "u3"] ∧
    (run2L [artBadDate] [] [] tenvNone tenvNone sendAll sendAll).deliveredIds =
      [generate_news_id "Gamma" "u3"] := by
  decide

/-- Claim C1, amended: for a fixed candidate set fetched in two sequential
runs against the same dedup store, the second run delivers no fingerprint
delivered by the first run and inserts no record for such a fingerprint.
This holds unconditionally for the scheduled pipeline
(`check_and_send_news`); for the on-demand pipeline (`latest_news`) it
holds provided every candidate in the processed window has a present
`source.name` and a parseable `publishedAt` — the fields the handler
evaluates only after delivering — since a candidate failing there is
delivered but never recorded, and is re-delivered by the next run. -/
theorem c1_no_redelivery (arts : List RawArticle) (store comm : List Record)
    (t1 t2 : TransEnv) (s1 s2 : SendOracle) :
    (∀ i, i ∈ (run2C arts store comm t1 t2 s1 s2).deliveredIds →
      i ∉ (run1C arts store comm t1 s1).deliveredIds) ∧
    (∀ r, r ∈ (run2C arts store comm t1 t2 s1 s2).store →
      r ∉ (run1C arts store comm t1 s1).store →
      r.id ∉ (run1C arts store comm t1 s1).deliveredIds) ∧
    ((∀ a ∈ arts.take 5, recordable a = true) →
      (∀ i, i ∈ (run2L arts store comm t1 t2 s1 s2).deliveredIds →
        i ∉ (run1L arts store comm t1 s1).deliveredIds) ∧
      (∀ r, r ∈ (run2L arts store comm t1 t2 s1 s2).store →
        r ∉ (run1L arts store comm t1 s1).store →
        r.id ∉ (run1L arts store comm t1 s1).deliveredIds)) := by
  have harts : fetch_bitcoin_news (.ok (some arts)) = arts := rfl
  -- every fingerprint delivered by the first scheduled run is in its store
  have h1C : ∀ i, i ∈ (run1C arts store comm t1 s1).deliveredIds →
      existsId (run1C arts store comm t1 s1).store i = true := by
    intro i hi
    unfold run1C at hi ⊢
    by_cases h : (fetch_bitcoin_news (.ok (some arts))).isEmpty
    · rw [check_news_empty _ _ _ _ _ h] at hi
      cases hi
    · rw [check_news_eq_loop _ _ _ _ _ (by simpa using h)] at hi ⊢
      exact sendLoop_delivered_store t1 s1 _ _ (by intro j hj; cases hj) i hi
  -- every fingerprint delivered by the second scheduled run is fresh
  -- relative to the store the first run left behind
  have h2C : ∀ i, i ∈ (run2C arts store comm t1 t2 s1 s2).deliveredIds →
      existsId (run1C arts store comm t1 s1).store i = false := by
    intro i hi
    unfold run2C at hi
    by_cases h : (fetch_bitcoin_news (.ok (some arts))).isEmpty
    · rw [check_news_empty _ _ _ _ _ h] at hi
      cases hi
    · rw [check_news_eq_loop _ _ _ _ _ (by simpa using h)] at hi
      obtain ⟨m, hm⟩ := sendLoop_deliveredIds_take t2 s2
        (filterNew (run1C arts store comm t1 s1).store (fetch_bitcoin_news (.ok (some arts))))
        ⟨(run1C arts store comm t1 s1).store, (run1C arts store comm t1 s1).committed,
          [], [], false⟩
      rw [hm] at hi
      simp only [List.nil_append] at hi
      have hi2 := List.mem_of_mem_take hi
      obtain ⟨n, hn, hid⟩ := List.mem_map.mp hi2
      rw [← hid]
      exact filterNew_fresh _ _ n hn
  have hmainC : ∀ i, i ∈ (run2C arts store comm t1 t2 s1 s2).deliveredIds →
      i ∉ (run1C arts store comm t1 s1).deliveredIds := by
    intro i h2 h1
    have hx := h2C i h2
    rw [h1C i h1] at hx
    cases hx
  refine ⟨hmainC, ?_, ?_⟩
  · intro r hr hnotin
    unfold run2C at hr
    by_cases h : (fetch_bitcoin_news (.ok (some arts))).isEmpty
    · rw [check_news_empty _ _ _ _ _ h] at hr
      exact absurd hr hnotin
    · rw [check_news_eq_loop _ _ _ _ _ (by simpa using h)] at hr
      rcases sendLoop_new_records t2 s2 _ _ r hr with hin | hdel
      · exact absurd hin hnotin
      · refine hmainC r.id ?_
        unfold run2C
        rw [check_news_eq_loop _ _ _ _ _ (by simpa using h)]
        exact hdel
  · intro hrec
    have hrec5 : ∀ a ∈ (fetch_bitcoin_news (.ok (some arts))).take 5, recordable a = true := by
      rw [harts]; exact hrec
    have h1L : ∀ i, i ∈ (run1L arts store comm t1 s1).deliveredIds →
        existsId (run1L arts store comm t1 s1).store i = true := by
      intro i hi
      unfold run1L at hi ⊢
      by_cases h : ((fetch_bitcoin_news (.ok (some arts))).take 5).isEmpty
      · rw [latest_news_empty _ _ _ _ _ h] at hi
        by_cases hs : s1 notFoundMsg = false
        · rw [if_pos hs] at hi; cases hi
        · rw [if_neg hs] at hi; cases hi
      · rw [latest_news_eq_finish _ _ _ _ _ (by simpa using h)] at hi ⊢
        rw [latestFinish_deliveredIds] at hi
        rw [latestFinish_store]
        exact latestLoop_delivered_store t1 s1 _ _ hrec5
          (by intro j hj; cases hj) i hi
    have h2L : ∀ i, i ∈ (run2L arts store comm t1 t2 s1 s2).deliveredIds →
        existsId (run1L arts store comm t1 s1).store i = false := by
      intro i hi
      unfold run2L at hi
      by_cases h : ((fetch_bitcoin_news (.ok (some arts))).take 5).isEmpty
      · rw [latest_news_empty _ _ _ _ _ h] at hi
        by_cases hs : s2 notFoundMsg = false
        · rw [if_pos hs] at hi; cases hi
        · rw [if_neg hs] at hi; cases hi
      · rw [latest_news_eq_finish _ _ _ _ _ (by simpa using h)] at hi
        rw [latestFinish_deliveredIds] at hi
        rcases latestLoop_delivered_fresh t2 s2 _ _ i hi with hin | hfresh
        · cases hin
        · exact hfresh
    have hmainL : ∀ i, i ∈ (run2L arts store comm t1 t2 s1 s2).deliveredIds →
        i ∉ (run1L arts store comm t1 s1).deliveredIds := by
      intro i h2 h1
      have hx := h2L i h2
      rw [h1L i h1] at hx
      cases hx
    refine ⟨hmainL, ?_⟩
    intro r hr hnotin
    unfold run2L at hr
    by_cases h : ((fetch_bitcoin_news (.ok (some arts))).take 5).isEmpty
    · rw [latest_news_empty _ _ _ _ _ h] at hr
      by_cases hs : s2 notFoundMsg = false
      · rw [if_pos hs] at hr; exact absurd hr hnotin
      · rw [if_neg hs] at hr; exact absurd hr hnotin
    · rw [latest_news_eq_finish _ _ _ _ _ (by simpa using h)] at hr
      rw [latestFinish_store] at hr
      rcases latestLoop_new_records t2 s2 _ _ r hr with hin | hdel
      · exact absurd hin hnotin
      · refine hmainL r.id ?_
        unfold run2L
        rw [latest_news_eq_finish _ _ _ _ _ (by simpa using h)]
        rw [latestFinish_deliveredIds]
        exact hdel

/-- Witness for `c1_no_redelivery`: a run-2 delivery (made possible by a
failed run-1 transport) is indeed of a fingerprint the first run never
delivered, in both pipelines. -/
theorem c1_witness :
    (∀ a ∈ [artA].take 5, recordable a = true) ∧
    generate_news_id "Alpha" "u1" ∈
      (run2C [artA] [] [] tenvNone tenvNone sendFailA sendAll).deliveredIds ∧
    generate_news_id "Alpha" "u1" ∉
      (run1C [artA] [] [] tenvNone sendFailA).deliveredIds ∧
    generate_news_id "Alpha" "u1" ∈
      (run2L [artA] [] [] tenvNone tenvNone sendFailLA sendAll).deliveredIds ∧
    generate_news_id "Alpha" "u1" ∉
      (run1L [artA] [] [] tenvNone sendFailLA).deliveredIds :=
  ⟨by decide, by decide,
    (c1_no_redelivery [artA] [] [] tenvNone tenvNone sendFailA sendAll).1 _ (by decide),
    by decide,
    ((c1_no_redelivery [artA] [] [] tenvNone tenvNone sendFailLA sendAll).2.2
      (by decide)).1 _ (by decide)⟩

end BTCNews
